import Mathlib

/-!
Verification of the agentic-ai-prometheus orchestration core.

Shallow embedding of the agent orchestrator (`src/core/agent.py`), the
resilience utilities (`src/core/utils.py`) and the metrics-gateway response
normalization (`src/core/prometheus_client.py`).  Backend I/O (Prometheus HTTP
calls, OpenAI completions) is abstracted as `Except`-valued oracles passed to
the embedded pipelines; numeric sample payloads are modelled as integers
(the claims under study do not involve numeric-string parsing).
-/

namespace PromAgent

/-- Role tag of one conversation turn. -/
inductive Role
  | user
  | assistant
deriving DecidableEq, Repr

/-- One conversation turn: role tag plus text content (a Python dict with
keys role and content in the source). -/
structure Turn where
  role : Role
  content : String
deriving DecidableEq, Repr

/-- History update performed by `PrometheusAgent.chat` after a successful
reply: append the user turn then the assistant turn, and when the length
exceeds 20 keep only the last 20 entries (the Python slice `[-20:]`). -/
def chatUpdate (history : List Turn) (userMsg response : String) : List Turn :=
  let h := history ++ [⟨Role.user, userMsg⟩, ⟨Role.assistant, response⟩]
  if h.length > 20 then h.drop (h.length - 20) else h

/-- Suffix consisting of the last `n` elements of a list. -/
def lastN {α : Type} (n : Nat) (xs : List α) : List α :=
  xs.drop (xs.length - n)

/-- Full un-trimmed turn stream produced by a sequence of successful chat
exchanges (user message, assistant response). -/
def fullStream : List (String × String) → List Turn
  | [] => []
  | e :: es => ⟨Role.user, e.1⟩ :: ⟨Role.assistant, e.2⟩ :: fullStream es

/-- Conversation window obtained by running a sequence of successful chat
invocations starting from the empty history. -/
def chatRun (exchanges : List (String × String)) : List Turn :=
  exchanges.foldl (fun h e => chatUpdate h e.1 e.2) []

theorem lastN_of_length_le {α : Type} (k : Nat) (xs : List α)
    (h : xs.length ≤ k) : lastN k xs = xs := by
  unfold lastN
  rw [Nat.sub_eq_zero_of_le h, List.drop_zero]

theorem length_lastN {α : Type} (k : Nat) (xs : List α) :
    (lastN k xs).length ≤ k := by
  unfold lastN
  rw [List.length_drop]
  omega

theorem chatUpdate_eq_lastN (h : List Turn) (u a : String) :
    chatUpdate h u a = lastN 20 (h ++ [⟨Role.user, u⟩, ⟨Role.assistant, a⟩]) := by
  unfold chatUpdate
  by_cases hl : (h ++ [(⟨Role.user, u⟩ : Turn), ⟨Role.assistant, a⟩]).length > 20
  · simp only [hl, if_true]
    rfl
  · simp only [hl, if_false]
    rw [lastN_of_length_le 20 _ (by omega)]

theorem lastN_append_lastN {α : Type} (k : Nat) (xs ys : List α) :
    lastN k (lastN k xs ++ ys) = lastN k (xs ++ ys) := by
  by_cases hk : xs.length ≤ k
  · rw [lastN_of_length_le k xs hk]
  · push_neg at hk
    unfold lastN
    have h1 : (xs.drop (xs.length - k)).length = k := by
      rw [List.length_drop]; omega
    rw [List.length_append, List.length_append, h1]
    have e1 : k + ys.length - k = ys.length := by omega
    have e3 : xs.length + ys.length - k = xs.length - k + ys.length := by omega
    have hsplit : List.drop (xs.length - k) (xs ++ ys) =
        List.drop (xs.length - k) xs ++ ys :=
      List.drop_append_of_le_length (by omega)
    rw [e1, e3, ← List.drop_drop, hsplit]

theorem chatRun_aux (es : List (String × String)) :
    ∀ h0 : List Turn,
      es.foldl (fun h e => chatUpdate h e.1 e.2) (lastN 20 h0) =
        lastN 20 (h0 ++ fullStream es) := by
  induction es with
  | nil => intro h0; simp [fullStream]
  | cons e es ih =>
      intro h0
      have hstep :
          chatUpdate (lastN 20 h0) e.1 e.2 =
            lastN 20 (h0 ++ [⟨Role.user, e.1⟩, ⟨Role.assistant, e.2⟩]) := by
        rw [chatUpdate_eq_lastN, lastN_append_lastN]
      simp only [List.foldl_cons, hstep]
      rw [ih (h0 ++ [Turn.mk Role.user e.1, Turn.mk Role.assistant e.2])]
      simp [fullStream, List.append_assoc]

/-- C2: after any sequence of successful chat invocations starting from the
empty window, the window length is at most 20, and the window is exactly the
suffix of most recent turns of the full conversation stream — so when the cap
is exceeded precisely the oldest turns have been evicted (FIFO), by content
identity. -/
theorem chat_window_bounded_fifo (exchanges : List (String × String)) :
    (chatRun exchanges).length ≤ 20 ∧
      chatRun exchanges = lastN 20 (fullStream exchanges) := by
  have hrun : chatRun exchanges = lastN 20 (fullStream exchanges) := by
    have h0 : (lastN 20 ([] : List Turn)) = [] := rfl
    have := chatRun_aux exchanges []
    rw [h0] at this
    simpa [chatRun] using this
  exact ⟨hrun ▸ length_lastN 20 (fullStream exchanges), hrun⟩

/-- Chat pipeline step of PrometheusAgent.chat, with the reasoning backend
abstracted as the outcome of the chat_with_metrics call: when that call raises,
the exception propagates and the stored history stays untouched; on success
the reply is returned and the history is updated by chatUpdate. -/
def chat (history : List Turn) (userMsg : String)
    (respond : Except String String) : Except String String × List Turn :=
  match respond with
  | .error e => (.error e, history)
  | .ok r => (.ok r, chatUpdate history userMsg r)

/-- C9: a failing Reasoning Client call leaves the conversation window
completely unchanged (no turn appended); a successful invocation appends
exactly the user turn followed by the reply turn, the window being the capped
suffix of that extension (and exactly the extension while under the cap). -/
theorem chat_failure_window_unchanged (history : List Turn) (u : String)
    (respond : Except String String) :
    (∀ e, respond = .error e →
      chat history u respond = (.error e, history)) ∧
    (∀ r, respond = .ok r →
      (chat history u respond).2 =
        lastN 20 (history ++ [⟨Role.user, u⟩, ⟨Role.assistant, r⟩]) ∧
      (history.length ≤ 18 →
        (chat history u respond).2 =
          history ++ [⟨Role.user, u⟩, ⟨Role.assistant, r⟩])) := by
  constructor
  · intro e he
    subst he
    rfl
  · intro r hr
    subst hr
    constructor
    · exact chatUpdate_eq_lastN history u r
    · intro hlen
      show chatUpdate history u r = _
      rw [chatUpdate_eq_lastN]
      exact lastN_of_length_le 20 _ (by simp; omega)

theorem chat_failure_window_unchanged_witness :
    chat [] "hi" (Except.error "down") = (Except.error "down", []) ∧
    (chat [] "hi" (Except.ok "hello")).2 =
      [⟨Role.user, "hi"⟩, ⟨Role.assistant, "hello"⟩] := by
  refine ⟨(chat_failure_window_unchanged [] "hi" (Except.error "down")).1 "down" rfl, ?_⟩
  have h2 := ((chat_failure_window_unchanged [] "hi" (Except.ok "hello")).2
    "hello" rfl).2 (by simp)
  simpa using h2

/-- Retry loop of retry_async: the number of retries remaining together with
the index of the current attempt; a failing attempt with no retries left
raises its own error (the loop raises exactly at attempt index max_retries),
otherwise the next attempt runs. -/
def retryFrom {ε α : Type} (attempts : Nat → Except ε α) :
    Nat → Nat → Except ε α
  | 0, i =>
    match attempts i with
    | .ok a => .ok a
    | .error e => .error e
  | r + 1, i =>
    match attempts i with
    | .ok a => .ok a
    | .error _ => retryFrom attempts r (i + 1)

/-- Wrapper produced by the retry_async decorator configured with max_retries
retries: attempts 0 through max_retries run in order; the sleeping backoff
between attempts is abstracted away (timing is not part of the claims). -/
def retry_async {ε α : Type} (maxRetries : Nat)
    (attempts : Nat → Except ε α) : Except ε α :=
  retryFrom attempts maxRetries 0

theorem retryFrom_ok {ε α : Type} (attempts : Nat → Except ε α) :
    ∀ (k r i : Nat) (a : α), k ≤ r →
      (∀ j, j < k → ∃ e, attempts (i + j) = .error e) →
      attempts (i + k) = .ok a →
      retryFrom attempts r i = .ok a := by
  intro k
  induction k with
  | zero =>
      intro r i a _ _ hok
      rw [Nat.add_zero] at hok
      cases r with
      | zero => simp [retryFrom, hok]
      | succ r => simp [retryFrom, hok]
  | succ k ih =>
      intro r i a hk hfail hok
      obtain ⟨e, he⟩ := hfail 0 (Nat.succ_pos k)
      rw [Nat.add_zero] at he
      cases r with
      | zero => omega
      | succ r =>
          simp only [retryFrom, he]
          refine ih r (i + 1) a (by omega) ?_ ?_
          · intro j hj
            obtain ⟨e2, he2⟩ := hfail (j + 1) (by omega)
            exact ⟨e2, by rw [show i + 1 + j = i + (j + 1) by omega]; exact he2⟩
          · rw [show i + 1 + k = i + (k + 1) by omega]
            exact hok

theorem retryFrom_allfail {ε α : Type} (attempts : Nat → Except ε α)
    (es : Nat → ε) :
    ∀ (r i : Nat),
      (∀ j, j ≤ r → attempts (i + j) = .error (es (i + j))) →
      retryFrom attempts r i = .error (es (i + r)) := by
  intro r
  induction r with
  | zero =>
      intro i h
      have h0 := h 0 (Nat.le_refl 0)
      rw [Nat.add_zero] at h0
      simp [retryFrom, h0]
  | succ r ih =>
      intro i h
      have h0 := h 0 (by omega)
      rw [Nat.add_zero] at h0
      simp only [retryFrom, h0]
      have hrec := ih (i + 1) (fun j hj => by
        rw [show i + 1 + j = i + (j + 1) by omega]
        exact h (j + 1) (by omega))
      rw [show i + 1 + r = i + (r + 1) by omega] at hrec
      exact hrec

/-- C3: a call-site failing on the first k attempts and succeeding on attempt
k (zero-based, k within the ceiling of max_retries + 1 total attempts) returns
the success value of that attempt; a call-site failing on every attempt up to
the ceiling raises the error of the final attempt, never an earlier one and
never a silent success-shaped value. -/
theorem retry_async_spec {ε α : Type} (m : Nat) (attempts : Nat → Except ε α) :
    (∀ k a, k ≤ m →
      (∀ j, j < k → ∃ e, attempts j = .error e) →
      attempts k = .ok a →
      retry_async m attempts = .ok a) ∧
    (∀ es : Nat → ε,
      (∀ j, j ≤ m → attempts j = .error (es j)) →
      retry_async m attempts = .error (es m)) := by
  constructor
  · intro k a hk hfail hok
    exact retryFrom_ok attempts k m 0 a hk
      (fun j hj => by rw [Nat.zero_add]; exact hfail j hj)
      (by rw [Nat.zero_add]; exact hok)
  · intro es h
    have hrec := retryFrom_allfail attempts es m 0
      (fun j hj => by rw [Nat.zero_add]; exact h j hj)
    rw [Nat.zero_add] at hrec
    exact hrec

/-- Behaviour of a call-site that fails once and then succeeds. -/
def wAttempts : Nat → Except String Nat :=
  fun j => if j = 0 then .error "boom" else .ok 7

theorem retry_async_spec_witness :
    retry_async 2 wAttempts = .ok 7 ∧
    retry_async 1 (fun _ => (Except.error "boom" : Except String Nat)) =
      .error "boom" := by
  constructor
  · exact (retry_async_spec 2 wAttempts).1 1 7 (by omega)
      (fun j hj => ⟨"boom", by
        have hj0 : j = 0 := by omega
        subst hj0
        rfl⟩)
      rfl
  · exact (retry_async_spec 1 (fun _ => Except.error "boom")).2
      (fun _ => "boom") (fun j hj => rfl)

/-- Association-list lookup, mirroring a Python dict membership test followed
by indexing (first binding wins; the store keeps keys unique). -/
def cacheFind {α : Type} : List (String × α × Int) → String → Option (α × Int)
  | [], _ => none
  | e :: rest, k => if e.1 = k then some e.2 else cacheFind rest k

/-- Deletion of a key binding from the store (the Python del statement). -/
def cacheErase {α : Type} :
    List (String × α × Int) → String → List (String × α × Int)
  | [], _ => []
  | e :: rest, k => if e.1 = k then rest else e :: cacheErase rest k

/-- Dict assignment: replace the binding of the key in place, or append a new
binding when the key is fresh. -/
def cacheSet {α : Type} :
    List (String × α × Int) → String → α → Int → List (String × α × Int)
  | [], k, v, t => [(k, v, t)]
  | e :: rest, k, v, t =>
      if e.1 = k then (k, v, t) :: rest else e :: cacheSet rest k v t

/-- Keys currently bound in the store. -/
def keysOf {α : Type} (l : List (String × α × Int)) : List String :=
  l.map fun e => e.1

/-- TimedCache of utils.py: a TTL plus a keyed store of value/insertion-time
entries; wall-clock instants are modelled as integers and passed explicitly
where the source reads time.time(). -/
structure TimedCache (α : Type) where
  ttl_seconds : Int
  cache : List (String × α × Int)

/-- TimedCache.set: bind the key to the value stamped with the current time. -/
def TimedCache.set {α : Type} (c : TimedCache α) (k : String) (v : α)
    (now : Int) : TimedCache α :=
  { c with cache := cacheSet c.cache k v now }

/-- TimedCache.get: return the stored value while the entry is strictly
younger than the TTL; an entry at least TTL old is deleted by the read and the
read reports a miss. -/
def TimedCache.get {α : Type} (c : TimedCache α) (k : String) (now : Int) :
    Option α × TimedCache α :=
  match cacheFind c.cache k with
  | some (v, ts) =>
      if now - ts < c.ttl_seconds then (some v, c)
      else (none, { c with cache := cacheErase c.cache k })
  | none => (none, c)

theorem cacheFind_cacheSet {α : Type} (l : List (String × α × Int))
    (k : String) (v : α) (t : Int) :
    cacheFind (cacheSet l k v t) k = some (v, t) := by
  induction l with
  | nil => simp [cacheSet, cacheFind]
  | cons e rest ih =>
      by_cases he : e.1 = k
      · simp [cacheSet, he, cacheFind]
      · simp [cacheSet, he, cacheFind, ih]

theorem cacheFind_eq_none_of_not_mem {α : Type} (l : List (String × α × Int))
    (k : String) (h : k ∉ keysOf l) : cacheFind l k = none := by
  induction l with
  | nil => simp [cacheFind]
  | cons e rest ih =>
      simp only [keysOf, List.map_cons, List.mem_cons] at h
      push_neg at h
      have he : e.1 ≠ k := fun hk => h.1 hk.symm
      simp only [cacheFind, he, if_false]
      exact ih (by simpa [keysOf] using h.2)

theorem cacheFind_cacheErase_cacheSet {α : Type} (l : List (String × α × Int))
    (k : String) (v : α) (t : Int) (hnd : (keysOf l).Nodup) :
    cacheFind (cacheErase (cacheSet l k v t) k) k = none := by
  induction l with
  | nil => simp [cacheSet, cacheErase, cacheFind]
  | cons e rest ih =>
      simp only [keysOf, List.map_cons, List.nodup_cons] at hnd
      by_cases he : e.1 = k
      · simp only [cacheSet, he, if_true, cacheErase]
        exact cacheFind_eq_none_of_not_mem rest k (he ▸ hnd.1)
      · simp only [cacheSet, he, if_false, cacheErase, cacheFind]
        exact ih hnd.2

/-- C4: a value stored at time T with time-to-live ttl is returned unchanged
by a read at time T + ttl − 1, while a read at time T + ttl + 1 misses, that
read lazily evicting the expired binding from the store. The key-uniqueness
hypothesis is the Python dict invariant of the store. -/
theorem timed_cache_ttl {α : Type} (c : TimedCache α) (k : String) (v : α)
    (T : Int) (hnd : (keysOf c.cache).Nodup) :
    ((c.set k v T).get k (T + c.ttl_seconds - 1)).1 = some v ∧
    ((c.set k v T).get k (T + c.ttl_seconds + 1)).1 = none ∧
    cacheFind (((c.set k v T).get k (T + c.ttl_seconds + 1)).2).cache k =
      none := by
  have hset : (c.set k v T).cache = cacheSet c.cache k v T := rfl
  have hfind : cacheFind (c.set k v T).cache k = some (v, T) := by
    rw [hset]; exact cacheFind_cacheSet c.cache k v T
  have httl : (c.set k v T).ttl_seconds = c.ttl_seconds := rfl
  have hhit : T + c.ttl_seconds - 1 - T < c.ttl_seconds := by omega
  have hmiss : ¬ T + c.ttl_seconds + 1 - T < c.ttl_seconds := by omega
  refine ⟨?_, ?_, ?_⟩
  · simp [TimedCache.get, hfind, httl, hhit]
  · simp [TimedCache.get, hfind, httl, hmiss]
  · simp only [TimedCache.get, hfind, httl, hmiss, if_false]
    rw [hset]
    exact cacheFind_cacheErase_cacheSet c.cache k v T hnd

theorem timed_cache_ttl_witness :
    (((TimedCache.mk 300 []).set "q" (42 : Nat) 0).get "q" (0 + 300 - 1)).1 =
      some 42 ∧
    (((TimedCache.mk 300 []).set "q" (42 : Nat) 0).get "q" (0 + 300 + 1)).1 =
      none ∧
    cacheFind
      ((((TimedCache.mk 300 []).set "q" (42 : Nat) 0).get "q"
        (0 + 300 + 1)).2).cache "q" = none :=
  timed_cache_ttl (TimedCache.mk 300 []) "q" 42 0 (by simp [keysOf])

/-- One series of a Prometheus query payload as read by the formatter: the
label set (metric), the instantaneous sample (value) read in the vector
branch, and the ranged samples (values) read in the matrix branch. Samples
are (timestamp, numeric value) pairs; numeric coercion of already-parsed
samples is the identity in this model. -/
structure SeriesData where
  metric : List (String × String)
  value : Int × Int
  values : List (Int × Int)
deriving DecidableEq, Repr

/-- Query result payload handed to format_query_result_to_dataframe: the
reported resultType string plus the series list. -/
structure QueryResult where
  resultType : String
  result : List SeriesData
deriving DecidableEq, Repr

/-- One row of the normalized TabularFrame: timestamp, numeric value, and the
label columns flattened from the series label set. -/
structure Row where
  timestamp : Int
  value : Int
  labels : List (String × String)
deriving DecidableEq, Repr

/-- Rows contributed by one series in the matrix branch: one row per
(timestamp, value) pair, in the input sample order. -/
def seriesRows (s : SeriesData) : List Row :=
  s.values.map fun p => Row.mk p.1 p.2 s.metric

/-- Normalization step of the metrics gateway: matrix results flatten each
series to one row per sample, vector results emit one row per series, and any
other reported result type raises a ValueError. -/
def format_query_result_to_dataframe (r : QueryResult) :
    Except String (List Row) :=
  if r.resultType = "matrix" then
    .ok (List.flatten (r.result.map seriesRows))
  else if r.resultType = "vector" then
    .ok (r.result.map fun s => Row.mk s.value.1 s.value.2 s.metric)
  else
    .error ("Unsupported result type: " ++ r.resultType)

theorem seriesRows_length (s : SeriesData) :
    (seriesRows s).length = s.values.length := by
  simp [seriesRows]

theorem flatten_rows_length (k : Nat) :
    ∀ sl : List SeriesData, (∀ s ∈ sl, s.values.length = k) →
      (List.flatten (sl.map seriesRows)).length = sl.length * k := by
  intro sl
  induction sl with
  | nil => simp
  | cons s rest ih =>
      intro h
      simp only [List.map_cons, List.flatten_cons, List.length_append,
        List.length_cons]
      rw [seriesRows_length, h s (by simp), ih (fun x hx => h x (by simp [hx]))]
      ring

theorem seriesRows_timestamps (s : SeriesData) :
    (seriesRows s).map Row.timestamp = s.values.map Prod.fst := by
  simp [seriesRows, List.map_map]

/-- C5: an instantaneous (vector) result with N series normalizes to exactly
N rows; a ranged (matrix) result with N series of k samples each normalizes
to exactly N·k rows, the per-series rows keeping the input sample order, so
their timestamps are non-decreasing whenever the input timestamps are. -/
theorem frame_row_counts (sl : List SeriesData) (k : Nat) :
    (∃ rows, format_query_result_to_dataframe ⟨"vector", sl⟩ = .ok rows ∧
      rows.length = sl.length) ∧
    ((∀ s ∈ sl, s.values.length = k) →
      ∃ rows, format_query_result_to_dataframe ⟨"matrix", sl⟩ = .ok rows ∧
        rows.length = sl.length * k ∧
        rows = List.flatten (sl.map seriesRows) ∧
        ∀ s ∈ sl,
          (seriesRows s).map Row.timestamp = s.values.map Prod.fst ∧
          (List.Chain' (fun a b => a ≤ b) (s.values.map Prod.fst) →
            List.Chain' (fun a b => a ≤ b)
              ((seriesRows s).map Row.timestamp))) := by
  have hv : format_query_result_to_dataframe ⟨"vector", sl⟩ =
      .ok (sl.map fun s => Row.mk s.value.1 s.value.2 s.metric) := by
    simp [format_query_result_to_dataframe]
  have hm : format_query_result_to_dataframe ⟨"matrix", sl⟩ =
      .ok (List.flatten (sl.map seriesRows)) := by
    simp [format_query_result_to_dataframe]
  constructor
  · exact ⟨_, hv, by simp⟩
  · intro hk
    refine ⟨_, hm, flatten_rows_length k sl hk, rfl, ?_⟩
    intro s _
    refine ⟨seriesRows_timestamps s, ?_⟩
    intro hchain
    rwa [seriesRows_timestamps s]

/-- Two concrete series with three samples each, for witnessing C5. -/
def wSeriesA : SeriesData :=
  ⟨[("instance", "a")], (5, 1), [(1, 10), (2, 20), (3, 30)]⟩

/-- Second concrete series for witnessing C5. -/
def wSeriesB : SeriesData :=
  ⟨[("instance", "b")], (6, 0), [(4, 40), (5, 50), (6, 60)]⟩

theorem frame_row_counts_witness :
    (∀ s ∈ [wSeriesA, wSeriesB], s.values.length = 3) ∧
    (∃ rows,
      format_query_result_to_dataframe ⟨"matrix", [wSeriesA, wSeriesB]⟩ =
        Except.ok rows ∧
      rows.length = [wSeriesA, wSeriesB].length * 3 ∧
      rows = List.flatten ([wSeriesA, wSeriesB].map seriesRows) ∧
      ∀ s ∈ [wSeriesA, wSeriesB],
        (seriesRows s).map Row.timestamp = s.values.map Prod.fst ∧
        (List.Chain' (fun a b => a ≤ b) (s.values.map Prod.fst) →
          List.Chain' (fun a b => a ≤ b)
            ((seriesRows s).map Row.timestamp))) :=
  ⟨by decide, (frame_row_counts [wSeriesA, wSeriesB] 3).2 (by decide)⟩

/-- C6: a result whose reported kind is neither vector nor matrix makes
normalization raise deterministically; no frame is ever returned for it. -/
theorem unsupported_result_type (r : QueryResult)
    (h1 : r.resultType ≠ "vector") (h2 : r.resultType ≠ "matrix") :
    format_query_result_to_dataframe r =
      .error ("Unsupported result type: " ++ r.resultType) ∧
    ∀ rows, format_query_result_to_dataframe r ≠ .ok rows := by
  have hf : format_query_result_to_dataframe r =
      .error ("Unsupported result type: " ++ r.resultType) := by
    simp [format_query_result_to_dataframe, h1, h2]
  refine ⟨hf, fun rows hc => ?_⟩
  rw [hf] at hc
  exact Except.noConfusion hc

theorem unsupported_result_type_witness :
    format_query_result_to_dataframe ⟨"scalar", []⟩ =
      Except.error ("Unsupported result type: " ++ "scalar") ∧
    ∀ rows, format_query_result_to_dataframe ⟨"scalar", []⟩ ≠
      Except.ok rows :=
  unsupported_result_type ⟨"scalar", []⟩ (by decide) (by decide)

/-- Test whether the pattern is an initial segment of the string, on
character lists. -/
def beginsWith : List Char → List Char → Bool
  | _, [] => true
  | [], _ :: _ => false
  | c :: cs, p :: ps => c == p && beginsWith cs ps

/-- Substring containment test on character lists, modelling the Python
expression pat in s. -/
def containsSub : List Char → List Char → Bool
  | [], pat => pat.isEmpty
  | c :: rest, pat => beginsWith (c :: rest) pat || containsSub rest pat

/-- Python substring test pat in s, on strings. -/
def strContains (s pat : String) : Bool :=
  containsSub s.toList pat.toList

theorem beginsWith_iff (pat s : List Char) :
    beginsWith s pat = true ↔ ∃ r, s = pat ++ r := by
  induction pat generalizing s with
  | nil =>
      cases s <;> simp [beginsWith]
  | cons p ps ih =>
      cases s with
      | nil => simp [beginsWith]
      | cons c cs =>
          rw [show beginsWith (c :: cs) (p :: ps) =
              (c == p && beginsWith cs ps) from rfl,
            Bool.and_eq_true, beq_iff_eq, ih]
          constructor
          · rintro ⟨hc, r, hr⟩
            subst hc
            subst hr
            exact ⟨r, rfl⟩
          · rintro ⟨r, hr⟩
            rw [List.cons_append] at hr
            injection hr with h1 h2
            exact ⟨h1, r, h2⟩

theorem containsSub_iff (s pat : List Char) :
    containsSub s pat = true ↔ ∃ l r, s = l ++ pat ++ r := by
  induction s with
  | nil =>
      rw [show containsSub [] pat = pat.isEmpty from rfl, List.isEmpty_iff]
      constructor
      · intro h
        subst h
        exact ⟨[], [], rfl⟩
      · rintro ⟨l, r, hr⟩
        rcases List.append_eq_nil.mp hr.symm with ⟨h1, h2⟩
        exact (List.append_eq_nil.mp h1).2
  | cons c cs ih =>
      rw [show containsSub (c :: cs) pat =
          (beginsWith (c :: cs) pat || containsSub cs pat) from rfl,
        Bool.or_eq_true, beginsWith_iff, ih]
      constructor
      · rintro (⟨r, hr⟩ | ⟨l, r, hr⟩)
        · exact ⟨[], r, by simpa using hr⟩
        · exact ⟨c :: l, r, by simp [hr]⟩
      · rintro ⟨l, r, hr⟩
        cases l with
        | nil => exact Or.inl ⟨r, by simpa using hr⟩
        | cons x xs =>
            right
            rw [List.cons_append, List.cons_append] at hr
            injection hr with h1 h2
            exact ⟨xs, r, h2⟩

/-- Branch predicate of natural_language_query: the generated expression text
contains a rate-call or an increase-call substring. -/
def rateOrIncrease (promql : String) : Bool :=
  strContains promql "rate(" || strContains promql "increase("

/-- Query execution strategy chosen by natural_language_query: a range query
over a lookback of some hours at a given step, or an instantaneous query. -/
inductive QueryPlan
  | rangeQ (query : String) (lookbackHours : Nat) (step : String)
  | instantQ (query : String)
deriving DecidableEq, Repr

/-- Plan selection of natural_language_query: rate-style or increase-style
expressions run as a range query over the default one-hour window at
one-minute resolution, everything else as an instant query. -/
def nlPlan (promql : String) : QueryPlan :=
  if rateOrIncrease promql then .rangeQ promql 1 "1m" else .instantQ promql

/-- C8: the pipeline executes a one-hour-lookback one-minute-step range query
exactly when the generated text contains a rate( or increase( substring, and
an instantaneous query otherwise. -/
theorem nl_query_branch (promql : String) :
    (nlPlan promql = QueryPlan.rangeQ promql 1 "1m" ↔
      (∃ l r, promql.toList = l ++ ("rate(").toList ++ r) ∨
      (∃ l r, promql.toList = l ++ ("increase(").toList ++ r)) ∧
    (nlPlan promql = QueryPlan.instantQ promql ↔
      ¬ ((∃ l r, promql.toList = l ++ ("rate(").toList ++ r) ∨
        (∃ l r, promql.toList = l ++ ("increase(").toList ++ r))) := by
  have hiff : rateOrIncrease promql = true ↔
      (∃ l r, promql.toList = l ++ ("rate(").toList ++ r) ∨
      (∃ l r, promql.toList = l ++ ("increase(").toList ++ r) := by
    rw [rateOrIncrease, Bool.or_eq_true, strContains, strContains,
      containsSub_iff, containsSub_iff]
  cases hb : rateOrIncrease promql with
  | true =>
      constructor
      · rw [← hiff]
        simp [nlPlan, hb]
      · rw [← hiff]
        simp [nlPlan, hb]
  | false =>
      constructor
      · rw [← hiff]
        simp [nlPlan, hb]
      · rw [← hiff]
        simp [nlPlan, hb]

theorem nl_query_branch_witness :
    nlPlan "rate(http_requests_total[5m])" =
      QueryPlan.rangeQ "rate(http_requests_total[5m])" 1 "1m" ∧
    nlPlan "up" = QueryPlan.instantQ "up" := by
  constructor
  · exact (nl_query_branch "rate(http_requests_total[5m])").1.mpr
      (Or.inl ⟨[], "http_requests_total[5m])".toList, by decide⟩)
  · refine (nl_query_branch "up").2.mpr ?_
    rintro (hA | hB)
    · have hc : containsSub "up".toList ("rate(").toList = true :=
        (containsSub_iff _ _).mpr hA
      exact absurd hc (by decide)
    · have hc : containsSub "up".toList ("increase(").toList = true :=
        (containsSub_iff _ _).mpr hB
      exact absurd hc (by decide)

/-- Structured result of the natural-language-query pipeline, holding the
fields attached by the source on each terminal outcome. -/
structure NLResult where
  status : String
  original_query : String
  generated_promql : String
  errorText : Option String
  results : Option QueryResult
  dataframe : Option (List Row)
  ai_analysis : Option String
deriving DecidableEq, Repr

/-- Backend behaviour visible to natural_language_query after the PromQL
expression has been generated: the Prometheus range and instant query calls
and the secondary analyze_metrics call, each either returning or raising. -/
structure NLBackend where
  query_range : String → Nat → String → Except String QueryResult
  query : String → Except String QueryResult
  analyze_metrics : Except String String

/-- Execution of the chosen query plan against the backend. -/
def runPlan (b : NLBackend) : QueryPlan → Except String QueryResult
  | .rangeQ q h st => b.query_range q h st
  | .instantQ q => b.query q

/-- Post-generation part of natural_language_query (the inner try block):
execute the branch-selected query, classify an empty series list as
no_results, convert to a frame and run the secondary analysis on a non-empty
result, and classify any exception raised inside the block as query_error,
attaching the generated expression to every outcome. -/
def nlExecuteClassify (b : NLBackend) (origQuery promql : String) : NLResult :=
  match runPlan b (nlPlan promql) with
  | .error e => ⟨"query_error", origQuery, promql, some e, none, none, none⟩
  | .ok res =>
    if res.result.isEmpty then
      ⟨"no_results", origQuery, promql, none, none, none, none⟩
    else
      match format_query_result_to_dataframe res with
      | .error e => ⟨"query_error", origQuery, promql, some e, none, none, none⟩
      | .ok df =>
        match b.analyze_metrics with
        | .error e =>
            ⟨"query_error", origQuery, promql, some e, none, none, none⟩
        | .ok a =>
            ⟨"success", origQuery, promql, none, some res, some df, some a⟩

/-- One-series instantaneous payload returned by the counterexample backend. -/
def cexResult : QueryResult := ⟨"vector", [wSeriesA]⟩

/-- Backend on which every Prometheus query succeeds with a non-empty result
while the secondary analyze_metrics call raises. -/
def cexBackend : NLBackend :=
  ⟨fun _ _ _ => .ok cexResult, fun _ => .ok cexResult, .error "model down"⟩

/-- C1 counterexample: a run in which the generated expression succeeds
against the backend with rows present, yet the pipeline classifies the run as
query_error because the secondary analysis call raised — refuting that
QueryError is produced precisely when the generated expression itself failed
against the backend. -/
theorem nl_query_error_without_backend_failure :
    (nlExecuteClassify cexBackend "show up" "up").status = "query_error" ∧
    runPlan cexBackend (nlPlan "up") = .ok cexResult ∧
    cexResult.result ≠ [] := by
  refine ⟨by decide, rfl, by decide⟩

/-- C1 (amended): the pipeline always lands in exactly one of the statuses
success, no_results, query_error, with the generated expression attached in
every case; query_error is produced exactly when a step of the inner block
raised — the query execution itself, the frame conversion, or the secondary
analysis call on a non-empty result — and the other two statuses are
characterized by a successful execution with empty, respectively non-empty
and fully processed, results. -/
theorem nl_query_classification (b : NLBackend) (oq pq : String) :
    ((nlExecuteClassify b oq pq).status = "success" ∨
      (nlExecuteClassify b oq pq).status = "no_results" ∨
      (nlExecuteClassify b oq pq).status = "query_error") ∧
    ((nlExecuteClassify b oq pq).status = "query_error" ↔
      (∃ e, runPlan b (nlPlan pq) = .error e) ∨
      (∃ res, runPlan b (nlPlan pq) = .ok res ∧ res.result ≠ [] ∧
        ((∃ e, format_query_result_to_dataframe res = .error e) ∨
          (∃ df, format_query_result_to_dataframe res = .ok df ∧
            ∃ e, b.analyze_metrics = .error e)))) ∧
    ((nlExecuteClassify b oq pq).status = "no_results" ↔
      ∃ res, runPlan b (nlPlan pq) = .ok res ∧ res.result = []) ∧
    ((nlExecuteClassify b oq pq).status = "success" ↔
      ∃ res df a, runPlan b (nlPlan pq) = .ok res ∧ res.result ≠ [] ∧
        format_query_result_to_dataframe res = .ok df ∧
        b.analyze_metrics = .ok a) ∧
    (nlExecuteClassify b oq pq).generated_promql = pq := by
  rcases hrun : runPlan b (nlPlan pq) with e0 | res
  · have hc : nlExecuteClassify b oq pq =
        ⟨"query_error", oq, pq, some e0, none, none, none⟩ := by
      simp [nlExecuteClassify, hrun]
    rw [hc]
    refine ⟨Or.inr (Or.inr rfl), ?_, ?_, ?_, rfl⟩
    · exact ⟨fun _ => Or.inl ⟨e0, rfl⟩, fun _ => rfl⟩
    · constructor
      · intro h
        simp at h
      · rintro ⟨res2, hres2, -⟩
        exact Except.noConfusion hres2
    · constructor
      · intro h
        simp at h
      · rintro ⟨res2, df2, a2, hres2, -⟩
        exact Except.noConfusion hres2
  · by_cases hres : res.result.isEmpty
    · have hresl : res.result = [] := List.isEmpty_iff.mp hres
      have hc : nlExecuteClassify b oq pq =
          ⟨"no_results", oq, pq, none, none, none, none⟩ := by
        simp [nlExecuteClassify, hrun, hres]
      rw [hc]
      refine ⟨Or.inr (Or.inl rfl), ?_, ?_, ?_, rfl⟩
      · constructor
        · intro h
          simp at h
        · rintro (⟨e, he⟩ | ⟨res2, hres2, hne, -⟩)
          · exact Except.noConfusion he
          · rw [Except.ok.injEq] at hres2
            subst hres2
            exact absurd hresl hne
      · exact ⟨fun _ => ⟨res, rfl, hresl⟩, fun _ => rfl⟩
      · constructor
        · intro h
          simp at h
        · rintro ⟨res2, df2, a2, hres2, hne2, -⟩
          rw [Except.ok.injEq] at hres2
          subst hres2
          exact absurd hresl hne2
    · have hresl : res.result ≠ [] := fun h => hres (List.isEmpty_iff.mpr h)
      have hresb : res.result.isEmpty = false := by simpa using hres
      rcases hdf : format_query_result_to_dataframe res with e1 | df
      · have hc : nlExecuteClassify b oq pq =
            ⟨"query_error", oq, pq, some e1, none, none, none⟩ := by
          simp [nlExecuteClassify, hrun, hresb, hdf]
        rw [hc]
        refine ⟨Or.inr (Or.inr rfl), ?_, ?_, ?_, rfl⟩
        · exact ⟨fun _ => Or.inr ⟨res, rfl, hresl, Or.inl ⟨e1, hdf⟩⟩,
            fun _ => rfl⟩
        · constructor
          · intro h
            simp at h
          · rintro ⟨res2, hres2, hrese⟩
            rw [Except.ok.injEq] at hres2
            subst hres2
            exact absurd hrese hresl
        · constructor
          · intro h
            simp at h
          · rintro ⟨res2, df2, a2, hres2, hne2, hdf2, -⟩
            rw [Except.ok.injEq] at hres2
            subst hres2
            rw [hdf] at hdf2
            exact Except.noConfusion hdf2
      · rcases han : b.analyze_metrics with e2 | a0
        · have hc : nlExecuteClassify b oq pq =
              ⟨"query_error", oq, pq, some e2, none, none, none⟩ := by
            simp [nlExecuteClassify, hrun, hresb, hdf, han]
          rw [hc]
          refine ⟨Or.inr (Or.inr rfl), ?_, ?_, ?_, rfl⟩
          · exact ⟨fun _ =>
              Or.inr ⟨res, rfl, hresl, Or.inr ⟨df, hdf, e2, rfl⟩⟩,
              fun _ => rfl⟩
          · constructor
            · intro h
              simp at h
            · rintro ⟨res2, hres2, hrese⟩
              rw [Except.ok.injEq] at hres2
              subst hres2
              exact absurd hrese hresl
          · constructor
            · intro h
              simp at h
            · rintro ⟨res2, df2, a2, hres2, hne2, hdf2, han2⟩
              exact Except.noConfusion han2
        · have hc : nlExecuteClassify b oq pq =
              ⟨"success", oq, pq, none, some res, some df, some a0⟩ := by
            simp [nlExecuteClassify, hrun, hresb, hdf, han]
          rw [hc]
          refine ⟨Or.inl rfl, ?_, ?_, ?_, rfl⟩
          · constructor
            · intro h
              simp at h
            · rintro (⟨e, he⟩ | ⟨res2, hres2, hne2, hrest⟩)
              · exact Except.noConfusion he
              · rw [Except.ok.injEq] at hres2
                subst hres2
                rcases hrest with ⟨e, he⟩ | ⟨df2, hdf2, e, he⟩
                · rw [hdf] at he
                  exact Except.noConfusion he
                · exact Except.noConfusion he
          · constructor
            · intro h
              simp at h
            · rintro ⟨res2, hres2, hrese⟩
              rw [Except.ok.injEq] at hres2
              subst hres2
              exact absurd hrese hresl
          · exact ⟨fun _ => ⟨res, df, a0, rfl, hresl, hdf, rfl⟩,
              fun _ => rfl⟩

/-- Backend on which every call succeeds, for witnessing the amended C1. -/
def okBackend : NLBackend :=
  ⟨fun _ _ _ => .ok cexResult, fun _ => .ok cexResult, .ok "all good"⟩

theorem nl_query_classification_witness :
    ((nlExecuteClassify okBackend "show up" "up").status = "success" ∨
      (nlExecuteClassify okBackend "show up" "up").status = "no_results" ∨
      (nlExecuteClassify okBackend "show up" "up").status = "query_error") ∧
    (nlExecuteClassify okBackend "show up" "up").generated_promql = "up" :=
  ⟨(nl_query_classification okBackend "show up" "up").1,
    (nl_query_classification okBackend "show up" "up").2.2.2.2⟩

/-- Active alert as delivered by the alerts endpoint: label set, annotation
set and lifecycle state. -/
structure Alert where
  labels : List (String × String)
  annotations : List (String × String)
  state : String
deriving DecidableEq, Repr

/-- Python dict get on a label set: the bound value, or None for an absent
key. -/
def lookupLabel : List (String × String) → String → Option String
  | [], _ => none
  | e :: rest, k => if e.1 = k then some e.2 else lookupLabel rest k

/-- Lookup loop of investigate_alert: first active alert whose alertname
label equals the requested name. -/
def findTargetAlert (alerts : List Alert) (name : String) : Option Alert :=
  alerts.find? fun a => decide (lookupLabel a.labels "alertname" = some name)

/-- Structured outcome of the alert-investigation pipeline. -/
structure InvestigationResult where
  status : String
  message : Option String
  alert : Option Alert
  related_metrics : List (String × QueryResult)
  ai_explanation : Option String
deriving DecidableEq, Repr

/-- Backend behaviour visible to investigate_alert after the active-alert list
is known: the Prometheus correlation probes (never a model call) and the
explain_alert Reasoning Client call. -/
structure InvestBackend where
  relatedMetrics : Alert → List (String × QueryResult)
  explain_alert : Alert → List (String × QueryResult) → Except String String

/-- Alert-investigation pipeline on a fetched active-alert list, returning the
structured outcome (or a propagated exception) together with the number of
Reasoning Client calls performed during the run. -/
def investigate_alert (b : InvestBackend) (alerts : List Alert)
    (name : String) : Except String InvestigationResult × Nat :=
  match findTargetAlert alerts name with
  | none =>
      (.ok ⟨"not_found",
        some ("Alert " ++ name ++ " not found in active alerts"),
        none, [], none⟩, 0)
  | some a =>
      match b.explain_alert a (b.relatedMetrics a) with
      | .error e => (.error e, 1)
      | .ok ex => (.ok ⟨"success", none, some a, b.relatedMetrics a, some ex⟩, 1)

/-- C7: an alert name matching no active alert's alertname label terminates
the investigation with the not_found outcome, performing zero Reasoning
Client calls — for every reasoning backend, so the outcome does not depend
on it at all. -/
theorem investigate_alert_not_found (b : InvestBackend) (alerts : List Alert)
    (name : String)
    (h : ∀ a ∈ alerts, lookupLabel a.labels "alertname" ≠ some name) :
    investigate_alert b alerts name =
      (.ok ⟨"not_found",
        some ("Alert " ++ name ++ " not found in active alerts"),
        none, [], none⟩, 0) := by
  have hfind : findTargetAlert alerts name = none := by
    rw [findTargetAlert, List.find?_eq_none]
    intro a ha
    simp [h a ha]
  simp [investigate_alert, hfind]

/-- Concrete firing alert for witnessing C7. -/
def wAlert : Alert :=
  ⟨[("alertname", "HighCPU"), ("instance", "web-1")],
    [("summary", "cpu hot")], "firing"⟩

/-- Reasoning backend that would be observable if it were ever called. -/
def wInvBackend : InvestBackend :=
  ⟨fun _ => [], fun _ _ => .error "should not be called"⟩

theorem investigate_alert_not_found_witness :
    investigate_alert wInvBackend [wAlert] "MemoryLow" =
      (.ok ⟨"not_found",
        some ("Alert " ++ "MemoryLow" ++ " not found in active alerts"),
        none, [], none⟩, 0) :=
  investigate_alert_not_found wInvBackend [wAlert] "MemoryLow" (by decide)

/-- Python dict assignment on the collected-data store: rebind in place or
append a fresh binding. -/
def dictInsert :
    List (String × QueryResult) → String → QueryResult →
      List (String × QueryResult)
  | [], k, v => [(k, v)]
  | e :: rest, k, v =>
      if e.1 = k then (k, v) :: rest else e :: dictInsert rest k v

/-- One iteration of the metric sweep of analyze_system_health: a raised
query, like an empty series list, leaves the store untouched; any other
result is stored under the metric name. -/
def collectStep (backend : String → Except String QueryResult)
    (acc : List (String × QueryResult)) (m : String) :
    List (String × QueryResult) :=
  match backend m with
  | .error _ => acc
  | .ok r => if r.result.isEmpty then acc else dictInsert acc m r

/-- Metric-collection sweep of analyze_system_health over the watch-list. -/
def collectMetrics (backend : String → Except String QueryResult)
    (metrics : List String) : List (String × QueryResult) :=
  metrics.foldl (collectStep backend) []

theorem mem_dictInsert (p : String × QueryResult) :
    ∀ (l : List (String × QueryResult)) (k : String) (v : QueryResult),
      p ∈ dictInsert l k v → p = (k, v) ∨ p ∈ l := by
  intro l
  induction l with
  | nil =>
      intro k v hp
      simp [dictInsert] at hp
      exact Or.inl hp
  | cons e rest ih =>
      intro k v hp
      by_cases he : e.1 = k
      · simp only [dictInsert, he, if_true, List.mem_cons] at hp
        rcases hp with hp | hp
        · exact Or.inl hp
        · exact Or.inr (List.mem_cons_of_mem e hp)
      · simp only [dictInsert, he, if_false, List.mem_cons] at hp
        rcases hp with hp | hp
        · exact Or.inr (by simp [hp])
        · rcases ih k v hp with hp2 | hp2
          · exact Or.inl hp2
          · exact Or.inr (List.mem_cons_of_mem e hp2)

theorem collect_go_not_mem (backend : String → Except String QueryResult)
    (m : String) (r : QueryResult) (hm : backend m = .ok r)
    (hr : r.result = []) :
    ∀ (ms : List String) (acc : List (String × QueryResult)),
      m ∉ acc.map Prod.fst →
      m ∉ (ms.foldl (collectStep backend) acc).map Prod.fst := by
  intro ms
  induction ms with
  | nil =>
      intro acc hacc
      simpa using hacc
  | cons m0 ms ih =>
      intro acc hacc
      rw [List.foldl_cons]
      apply ih
      by_cases hm0 : m0 = m
      · subst hm0
        simpa [collectStep, hm, hr] using hacc
      · rcases hb : backend m0 with e0 | r0
        · simpa [collectStep, hb] using hacc
        · by_cases hre : r0.result.isEmpty
          · simpa [collectStep, hb, hre] using hacc
          · simp only [collectStep, hb, hre, if_false]
            intro hmem
            rcases List.mem_map.mp hmem with ⟨p, hp, hp1⟩
            rcases mem_dictInsert p acc m0 r0 hp with hp2 | hp2
            · exact hm0 (by rw [hp2] at hp1; simpa using hp1)
            · exact hacc (List.mem_map.mpr ⟨p, hp2, hp1⟩)

theorem foldl_congr_fun {β γ : Type} (f g : β → γ → β)
    (h : ∀ acc x, f acc x = g acc x) :
    ∀ (l : List γ) (acc : β), l.foldl f acc = l.foldl g acc := by
  intro l
  induction l with
  | nil => intro acc; rfl
  | cons x xs ih =>
      intro acc
      rw [List.foldl_cons, List.foldl_cons, h acc x, ih]

theorem collect_go_nonempty (backend : String → Except String QueryResult) :
    ∀ (ms : List String) (acc : List (String × QueryResult)),
      (∀ p ∈ acc, p.2.result ≠ []) →
      ∀ p ∈ ms.foldl (collectStep backend) acc, p.2.result ≠ [] := by
  intro ms
  induction ms with
  | nil =>
      intro acc hacc
      simpa using hacc
  | cons m0 ms ih =>
      intro acc hacc
      rw [List.foldl_cons]
      apply ih
      intro p hp
      rcases hb : backend m0 with e0 | r0
      · rw [collectStep, hb] at hp
        exact hacc p hp
      · by_cases hre : r0.result.isEmpty
        · rw [collectStep, hb] at hp
          simp only [hre, if_true] at hp
          exact hacc p hp
        · rw [collectStep, hb] at hp
          simp only [hre, if_false] at hp
          rcases mem_dictInsert p acc m0 r0 hp with hp2 | hp2
          · rw [hp2]
            exact fun hc => hre (List.isEmpty_iff.mpr hc)
          · exact hacc p hp2

/-- C10: a watch-list metric whose range query succeeds with an empty series
list is omitted from the collected data and from metrics_collected exactly
as if its query had failed, and the collected data never holds a metric with
zero series. -/
theorem health_empty_series_omitted
    (backend : String → Except String QueryResult) (metrics : List String)
    (m : String) (r : QueryResult) (hm : backend m = .ok r)
    (hr : r.result = []) :
    m ∉ (collectMetrics backend metrics).map Prod.fst ∧
    collectMetrics backend metrics =
      collectMetrics
        (fun q => if q = m then .error "query failed" else backend q)
        metrics ∧
    ∀ p ∈ collectMetrics backend metrics, p.2.result ≠ [] := by
  refine ⟨?_, ?_, ?_⟩
  · exact collect_go_not_mem backend m r hm hr metrics [] (by simp)
  · rw [collectMetrics, collectMetrics]
    apply foldl_congr_fun
    intro acc q
    by_cases hq : q = m
    · subst hq
      simp [collectStep, hm, hr]
    · simp [collectStep, hq]
  · exact collect_go_nonempty backend metrics [] (by simp)

/-- Watch-list backend in which the up query succeeds with zero series. -/
def wHealthBackend : String → Except String QueryResult :=
  fun q => if q = "up" then .ok ⟨"matrix", []⟩ else .ok ⟨"matrix", [wSeriesA]⟩

theorem health_empty_series_omitted_witness :
    "up" ∉
      (collectMetrics wHealthBackend ["up", "cpu_usage_percent"]).map
        Prod.fst ∧
    collectMetrics wHealthBackend ["up", "cpu_usage_percent"] =
      collectMetrics
        (fun q => if q = "up" then .error "query failed" else wHealthBackend q)
        ["up", "cpu_usage_percent"] ∧
    ∀ p ∈ collectMetrics wHealthBackend ["up", "cpu_usage_percent"],
      p.2.result ≠ [] :=
  health_empty_series_omitted wHealthBackend ["up", "cpu_usage_percent"] "up"
    ⟨"matrix", []⟩ rfl rfl

end PromAgent
